import Mathlib

/-!
Shallow embedding of the yt-archiver archiving engine: Go error values with
their unwrap chains, the download invoker with its retry loop, the startup
disk reconciler, channel enumeration with upcoming-video filtering, the
per-channel archive cycle with its seen-set bookkeeping, and the worker
pool's completion wait. Each definition is translated directly from the
corresponding Go function.
-/

namespace YTA

/-- Go error values as built by this program: `errors.New` roots,
`fmt.Errorf` with `%w` (unwrappable), `fmt.Errorf` with `%v` (opaque, no
`Unwrap`), and the `videoError` struct whose `Unwrap` returns `ErrVideo`. -/
inductive GoErr where
  | base (msg : String)
  | wrap (outer : GoErr) (msg : String)
  | msgWrap (cause : GoErr) (msg : String)
  | videoError (videoID : String) (cause : GoErr)
deriving DecidableEq, Repr

/-- `ErrVideo = errors.New("ytarchiver: archive video")`. -/
def ErrVideo : GoErr := .base "ytarchiver: archive video"

/-- `ErrYoutubeDownloader = errors.New("ytarchiver: youtube downloader error")`. -/
def ErrYoutubeDownloader : GoErr := .base "ytarchiver: youtube downloader error"

/-- `ErrCacheMiss = errors.New("ytarchiver archive: channel not in cache")`. -/
def ErrCacheMiss : GoErr := .base "ytarchiver archive: channel not in cache"

/-- `ErrEmptyResults = errors.New("no results returned")`. -/
def ErrEmptyResults : GoErr := .base "no results returned"

/-- Go `errors.Is`: compare against the target, then follow the unwrap
chain. `wrap` unwraps to its outer error; `msgWrap` (built with `%v`) has
no `Unwrap`; `videoError.Unwrap()` returns `ErrVideo`, a root. -/
def errorsIs (e target : GoErr) : Bool :=
  (e == target) ||
    match e with
    | .base _ => false
    | .wrap outer _ => errorsIs outer target
    | .msgWrap _ _ => false
    | .videoError _ _ => ErrVideo == target

/-- Outcome of one spawned run of the external downloader process:
either the spawn itself fails (`proc.Run` returns an error) or the
process exits with a code (`ProcessState.Success()` iff code = 0). -/
inductive RunOutcome where
  | spawnFailure (msg : String)
  | exited (pid : Nat) (code : Nat)
deriving DecidableEq, Repr

/-- The error produced by one iteration of the download loop, per the two
error branches of `youtubeDownload`. `none` means the run succeeded. -/
def runError : RunOutcome → Option GoErr
  | .spawnFailure msg => some (.wrap ErrYoutubeDownloader msg)
  | .exited pid code =>
      if code == 0 then none
      else some (.wrap ErrYoutubeDownloader
        ("pid " ++ toString pid ++ " exitted with code " ++ toString code))

/-- The loop `for i := uint(0); i < cfg.MaxRetries; i++` of
`youtubeDownload`: on a failed attempt store the failure in `err` and
continue; on a successful attempt return nil immediately; when the
iterations run out return the carried `err` (initially nil). The `attempt`
oracle gives the outcome of the i-th spawn. -/
def downloadLoop (attempt : Nat → RunOutcome) : Nat → Nat → Option GoErr → Option GoErr
  | 0, _, err => err
  | n + 1, i, _ =>
    match runError (attempt i) with
    | some e => downloadLoop attempt n (i + 1) (some e)
    | none => none

/-- `youtubeDownload(cfg, videoID, outPath)` (the retrying revision in
selector.go): `var err error` starts nil, the loop runs `cfg.MaxRetries`
times (the local `max` variable is computed but never used by the loop),
and the carried error is returned when attempts are exhausted. -/
def youtubeDownload (maxRetries : Nat) (attempt : Nat → RunOutcome) : Option GoErr :=
  downloadLoop attempt maxRetries 0 none

/-- One entry returned by `os.ReadDir`: a name and whether it is a directory. -/
structure DirEntry where
  name : String
  isDir : Bool
deriving DecidableEq, Repr

/-- `strings.IndexByte(name, '.')` followed by `name[:estart]` when found:
the substring of the filename up to (not including) the first dot, or the
whole name when it has no dot. -/
def deriveId (name : String) : String := String.mk (name.data.takeWhile (fun c => c ≠ '.'))

/-- `strings.HasSuffix(name, suffix)`. -/
def goHasSuffix (name suffix : String) : Bool := suffix.data.isSuffixOf name.data

/-- Insertion into a `map[string]struct{}` modelled on ordered lists:
a no-op when the key is already present. -/
def setInsert (l : List String) (x : String) : List String :=
  if x ∈ l then l else l ++ [x]

/-- The body of `crawlRoot`'s inner loop over directory entries: skip
directories, skip filenames ending in ".json", otherwise insert the
derived video ID into the seen set. -/
def crawlStep (l : List String) (f : DirEntry) : List String :=
  if f.isDir then l
  else if goHasSuffix f.name ".json" then l
  else setInsert l (deriveId f.name)

/-- One channel's pass of `crawlRoot`: `none` for `dirListing` models a
`ReadDir` error (missing subdirectory), which leaves the seen set alone;
otherwise, when the listing is non-empty and the seen set is nil it is
initialised to an empty set, and the entry loop runs. -/
def crawlChannel (seen : Option (List String)) (dirListing : Option (List DirEntry)) :
    Option (List String) :=
  match dirListing with
  | none => seen
  | some dir =>
    let s0 := if dir.length != 0 && seen.isNone then some ([] : List String) else seen
    match s0 with
    | none => seen
    | some l => some (dir.foldl crawlStep l)

/-- A playlist item as observed from the uploads feed, together with the
live-broadcast status (`Snippet.LiveBroadcastContent`) that the batched
`Videos.List` call of `checkUpcoming` reports for its ID. -/
structure Video where
  videoId : String
  channelId : String
  live : String
deriving DecidableEq, Repr

/-- One page of `PlaylistItems.List` results: HTTP status plus items. -/
structure Page where
  httpStatus : Nat
  items : List Video
deriving DecidableEq, Repr

/-- `isHTTPError(status)`. -/
def isHTTPError (status : Nat) : Bool := status < 200 || 300 ≤ status

/-- `checkUpcoming`: the IDs on the page whose live-broadcast status is
neither "none" nor "completed" (upcoming or currently live). The batched
status request is modelled as answering from each item's `live` field. -/
def checkUpcoming (items : List Video) : List String :=
  (items.filter (fun v => v.live != "none" && v.live != "completed")).map (fun v => v.videoId)

/-- Result of one enumeration, instrumented with the videos actually
passed to the visit callback (in call order) and the pages processed. -/
structure EnumResult (σ : Type) where
  state : σ
  err : Option GoErr
  pagesDone : List Page
  visited : List Video

/-- The item loop of `cachedChannel.foreach`: skip items flagged upcoming
(without invoking the callback), otherwise run the callback, halting the
sequence on its first error. The callback threads explicit state. -/
def runItems (cmd : σ → Video → σ × Option GoErr) (upcoming : List String) :
    List Video → σ → EnumResult σ
  | [], s => ⟨s, none, [], []⟩
  | v :: rest, s =>
    if v.videoId ∈ upcoming then runItems cmd upcoming rest s
    else
      match cmd s v with
      | (s', some e) => ⟨s', some e, [], [v]⟩
      | (s', none) =>
        let r := runItems cmd upcoming rest s'
        ⟨r.state, r.err, [], v :: r.visited⟩

/-- `cachedChannel.foreach` on one page: fail on an HTTP error status,
report `ErrEmptyResults` on an empty page, otherwise compute the upcoming
set and run the item loop. (A failure of the status request itself would
abort before any item is visited, so it cannot visit an upcoming video
either; the request is modelled as succeeding.) -/
def foreachPage (cmd : σ → Video → σ × Option GoErr) (p : Page) (s : σ) : EnumResult σ :=
  if isHTTPError p.httpStatus then ⟨s, some (.base "foreach video: http status"), [p], []⟩
  else if p.items.isEmpty then ⟨s, some ErrEmptyResults, [p], []⟩
  else
    let r := runItems cmd (checkUpcoming p.items) p.items s
    ⟨r.state, r.err, [p], r.visited⟩

/-- The `rq.Pages` walk of `Foreach` when the `Videos` map is nil: feed
every page to `foreach` in order, stopping at the first page error, which
is wrapped with `%v` (no unwrap chain) before being returned. -/
def foreachPages (cmd : σ → Video → σ × Option GoErr) :
    List Page → σ → EnumResult σ
  | [], s => ⟨s, none, [], []⟩
  | p :: rest, s =>
    match foreachPage cmd p s with
    | ⟨s1, some e, _, vis⟩ => ⟨s1, some (.msgWrap e "foreach video (paged)"), [p], vis⟩
    | ⟨s1, none, _, vis⟩ =>
      let r2 := foreachPages cmd rest s1
      ⟨r2.state, r2.err, p :: r2.pagesDone, vis ++ r2.visited⟩

/-- The page `rq.Do()` yields; the feed always answers a first page, an
empty one when the playlist has no items. -/
def emptyPage : Page := ⟨200, []⟩

/-- `cachedChannel.Foreach`: when the `Videos` map is nil, walk every page
of the uploads feed; when it is non-nil (even if empty), request and visit
only the first page, wrapping its error with `%v`. -/
def Foreach (videos : Option (List String)) (cmd : σ → Video → σ × Option GoErr)
    (pages : List Page) (s : σ) : EnumResult σ :=
  match videos with
  | none => foreachPages cmd pages s
  | some _ =>
    match foreachPage cmd (pages.headD emptyPage) s with
    | ⟨s1, e1, pd1, vis1⟩ =>
      ⟨s1, e1.map (fun e => .msgWrap e "foreach video (first page)"), pd1, vis1⟩

/-- A configured channel: identity plus its channel-scoped selectors
(`YouTubeChannel.Selectors`). Selectors are the `Should` predicates. -/
structure YouTubeChannel where
  id : String
  selectors : List (Video → Bool)

/-- The configuration fields the archive cycle reads. `selectors` is the
global `Config.Selectors` list. -/
structure Config where
  maxParallel : Nat
  maxRetries : Nat
  selectors : List (Video → Bool)

/-- The mutable state the `Archive` visit callback touches: the channel's
seen set (`cc.Videos`) and the jobs submitted to the pool, in order. -/
structure ArchState where
  videos : Option (List String)
  submitted : List String
deriving DecidableEq, Repr

/-- The visit callback of `Archiver.Archive`: initialise the seen map if
nil, skip a video already seen, skip a video any global selector
(`a.Selectors`) rejects, otherwise submit it to the pool and mark it seen.
It never returns an error. Note the channel's own `Selectors` field is not
consulted here. -/
def archiveStep (selectors : List (Video → Bool)) (s : ArchState) (pi : Video) :
    ArchState × Option GoErr :=
  if pi.videoId ∈ s.videos.getD [] then (⟨some (s.videos.getD []), s.submitted⟩, none)
  else if !(selectors.all fun m => m pi) then (⟨some (s.videos.getD []), s.submitted⟩, none)
  else (⟨some (setInsert (s.videos.getD []) pi.videoId), s.submitted ++ [pi.videoId]⟩, none)

/-- The error list one worker accumulates over its jobs and reports once
on exit: the `youtubeDownload` failure of each failed job, in job order. -/
def workerReport (maxRetries : Nat) (outcome : String → Nat → RunOutcome) :
    List String → List GoErr
  | [] => []
  | v :: rest =>
    match youtubeDownload maxRetries (outcome v) with
    | some e => e :: workerReport maxRetries outcome rest
    | none => workerReport maxRetries outcome rest

/-- `archiveMultiplexer.Wait`, instrumented with the number of receives it
performs: `mp.cfg.MaxParallel` receives from the result channel, each
received report appended in arrival order. `reports` is the sequence of
messages available on the channel. -/
def WaitAux : Nat → List (List GoErr) → List GoErr × Nat
  | 0, _ => ([], 0)
  | _ + 1, [] => ([], 0)
  | n + 1, r :: rest =>
    let (l, c) := WaitAux n rest
    (r ++ l, c + 1)

/-- The body of the post-`Wait` loop of `Archive` for one pool error:
append it to the channel's error collection, and when `errors.Is(ve,
ErrVideo)` holds delete `ve.(videoError).VideoID` from the seen set (the
type assertion would panic on a non-`videoError`; that branch is
unreachable for pool errors). -/
def processPoolError (st : Option (List String) × List GoErr) (ve : GoErr) :
    Option (List String) × List GoErr :=
  let st' := (st.1, st.2 ++ [ve])
  if errorsIs ve ErrVideo then
    match ve with
    | .videoError vid _ => (st'.1.map (fun l => l.filter (fun x => x ≠ vid)), st'.2)
    | _ => st'
  else st'

/-- Result of one channel's archive cycle: the final seen set, the jobs
submitted, and the channel's error collection (`cerr.Errors`). -/
structure CycleResult where
  videos : Option (List String)
  submitted : List String
  errors : List GoErr
deriving DecidableEq, Repr

set_option linter.unusedVariables false in
/-- One channel's cycle inside `Archiver.Archive`, from the cache hit to
the end of the post-`Wait` loop: enumerate via `Foreach` with the visit
callback (which evaluates only the global selectors), record an
enumeration error if any, drain the pool (the workers between them run
`youtubeDownload` once per submitted job; `outcome` gives each job's
spawn outcomes), then process every pool error. The channel argument
carries the channel-scoped selectors, which this code never reads. -/
def archiveChannel (cfg : Config) (ch : YouTubeChannel) (videos0 : Option (List String))
    (pages : List Page) (outcome : String → Nat → RunOutcome) : CycleResult :=
  let er := Foreach videos0 (archiveStep cfg.selectors) pages ⟨videos0, []⟩
  let enumErrs := match er.err with | some e => [e] | none => ([] : List GoErr)
  let poolErrs := workerReport cfg.maxRetries outcome er.state.submitted
  let vc := poolErrs.foldl processPoolError (er.state.videos, [])
  ⟨vc.1, er.state.submitted, enumErrs ++ vc.2⟩

/-- What `Archive` finds for one configured channel: either the channel is
missing from `chancache`, or a cache hit carrying the entry's seen set and
the feed pages the enumeration will serve. -/
inductive CacheLookup where
  | miss
  | hit (videos0 : Option (List String)) (pages : List Page)

/-- One configured channel as `Archive` encounters it, with the download
outcomes its jobs would see. -/
structure ChannelRun where
  channel : YouTubeChannel
  cache : CacheLookup
  outcome : String → Nat → RunOutcome

/-- A `channelError`: channel identity plus its collected errors. -/
structure ChannelErr where
  channelId : String
  errs : List GoErr
deriving DecidableEq, Repr

/-- The per-channel loop of `Archiver.Archive`: a cache miss records
`ErrCacheMiss` for that channel and continues with the next; a cache hit
runs the channel's cycle and appends its error collection when non-empty.
No branch stops the loop early. -/
def archiveLoop (cfg : Config) : List ChannelRun → List ChannelErr
  | [] => []
  | cr :: rest =>
    match cr.cache with
    | .miss => ⟨cr.channel.id, [ErrCacheMiss]⟩ :: archiveLoop cfg rest
    | .hit v0 pages =>
      if (archiveChannel cfg cr.channel v0 pages cr.outcome).errors.isEmpty then
        archiveLoop cfg rest
      else
        ⟨cr.channel.id, (archiveChannel cfg cr.channel v0 pages cr.outcome).errors⟩ ::
          archiveLoop cfg rest

/-- `Archiver.Archive`: run the loop over every configured channel and
return nil exactly when the aggregated collection is empty. -/
def Archive (cfg : Config) (runs : List ChannelRun) : Option (List ChannelErr) :=
  let e := archiveLoop cfg runs
  if e.isEmpty then none else some e

/-- The outcome `Archive` records for a single channel, in isolation:
`none` when the channel contributes no errors. -/
def channelOutcome (cfg : Config) (cr : ChannelRun) : Option ChannelErr :=
  match cr.cache with
  | .miss => some ⟨cr.channel.id, [ErrCacheMiss]⟩
  | .hit v0 pages =>
    if (archiveChannel cfg cr.channel v0 pages cr.outcome).errors.isEmpty then none
    else some ⟨cr.channel.id, (archiveChannel cfg cr.channel v0 pages cr.outcome).errors⟩

/-- Fixture: a visit callback that records nothing and never fails. -/
def okCmd : Unit → Video → Unit × Option GoErr := fun s _ => (s, none)

/-- Fixture: a completed video on channel chan1. -/
def vid1 : Video := ⟨"v1", "chan1", "none"⟩

/-- Fixture: a second completed video on channel chan1. -/
def vid2 : Video := ⟨"v2", "chan1", "none"⟩

/-- Fixture: a two-page uploads feed. -/
def pagesTwo : List Page := [⟨200, [vid1]⟩, ⟨200, [vid2]⟩]

/-- Fixture: a channel with no channel-scoped selectors. -/
def chanPlain : YouTubeChannel := ⟨"chan1", []⟩

/-- Fixture: a channel whose own selector list rejects every video. -/
def chanRejecting : YouTubeChannel := ⟨"chan1", [fun _ => false]⟩

/-- Fixture: one worker, one retry, no global selectors. -/
def cfgPlain : Config := ⟨1, 1, []⟩

/-- Fixture: one worker, one retry, a global selector rejecting every video. -/
def cfgRejecting : Config := ⟨1, 1, [fun _ => false]⟩

/-- Fixture: every spawned download exits with code 1. -/
def failingOutcome : String → Nat → RunOutcome := fun _ _ => .exited 42 1

/-- Fixture: every spawned download exits cleanly. -/
def okOutcome : String → Nat → RunOutcome := fun _ _ => .exited 42 0

theorem setInsert_mem (l : List String) (y x : String) :
    x ∈ setInsert l y ↔ x ∈ l ∨ x = y := by
  unfold setInsert
  split
  · rename_i hy
    constructor
    · exact fun h => Or.inl h
    · rintro (h | rfl)
      · exact h
      · exact hy
  · simp [List.mem_append]

theorem crawlStep_mem (l : List String) (f : DirEntry) (x : String) :
    x ∈ crawlStep l f ↔
      x ∈ l ∨ (f.isDir = false ∧ goHasSuffix f.name ".json" = false ∧ deriveId f.name = x) := by
  unfold crawlStep
  by_cases hd : f.isDir = true
  · simp [hd]
  · by_cases hj : goHasSuffix f.name ".json" = true
    · simp [hd, hj]
    · simp [hd, hj, setInsert_mem, eq_comm]

theorem crawl_foldl_mem (dir : List DirEntry) (l : List String) (x : String) :
    x ∈ dir.foldl crawlStep l ↔
      x ∈ l ∨ ∃ f ∈ dir, f.isDir = false ∧ goHasSuffix f.name ".json" = false ∧
        deriveId f.name = x := by
  induction dir generalizing l with
  | nil => simp
  | cons f rest ih =>
    rw [List.foldl_cons, ih, crawlStep_mem]
    simp only [List.mem_cons]
    constructor
    · rintro ((h | h) | ⟨g, hg, h⟩)
      · exact Or.inl h
      · exact Or.inr ⟨f, Or.inl rfl, h⟩
      · exact Or.inr ⟨g, Or.inr hg, h⟩
    · rintro (h | ⟨g, (rfl | hg), h⟩)
      · exact Or.inl (Or.inl h)
      · exact Or.inl (Or.inr h)
      · exact Or.inr ⟨g, hg, h⟩

theorem crawl_foldl_skip (dir : List DirEntry) (l : List String)
    (h : ∀ f ∈ dir, f.isDir = true ∨ goHasSuffix f.name ".json" = true) :
    dir.foldl crawlStep l = l := by
  induction dir generalizing l with
  | nil => rfl
  | cons f rest ih =>
    rw [List.foldl_cons]
    have hf := h f (List.mem_cons_self f rest)
    have hstep : crawlStep l f = l := by
      unfold crawlStep
      rcases hf with hf | hf <;> simp [hf]
    rw [hstep]
    exact ih l fun g hg => h g (List.mem_cons_of_mem f hg)

theorem checkUpcoming_mem (items : List Video) (v : Video) (hv : v ∈ items)
    (h1 : v.live ≠ "none") (h2 : v.live ≠ "completed") :
    v.videoId ∈ checkUpcoming items := by
  unfold checkUpcoming
  rw [List.mem_map]
  refine ⟨v, ?_, rfl⟩
  rw [List.mem_filter]
  refine ⟨hv, ?_⟩
  simp [h1, h2]

theorem runItems_visited_mem (cmd : σ → Video → σ × Option GoErr) (upcoming : List String)
    (items : List Video) (s : σ) (v : Video)
    (h : v ∈ (runItems cmd upcoming items s).visited) :
    v ∈ items ∧ v.videoId ∉ upcoming := by
  induction items generalizing s with
  | nil => simp [runItems] at h
  | cons w rest ih =>
    unfold runItems at h
    split at h
    · rename_i hup
      have := ih _ h
      exact ⟨List.mem_cons_of_mem w this.1, this.2⟩
    · rename_i hup
      split at h
      · rename_i s' e heq
        simp only [List.mem_singleton] at h
        subst h
        exact ⟨List.mem_cons_self _ _, hup⟩
      · rename_i s' heq
        simp only [List.mem_cons] at h
        rcases h with rfl | h
        · exact ⟨List.mem_cons_self _ _, hup⟩
        · have := ih _ h
          exact ⟨List.mem_cons_of_mem w this.1, this.2⟩

theorem foreachPage_visited_good (cmd : σ → Video → σ × Option GoErr) (p : Page) (s : σ)
    (v : Video) (h : v ∈ (foreachPage cmd p s).visited) :
    v.live = "none" ∨ v.live = "completed" := by
  unfold foreachPage at h
  split at h
  · simp at h
  · split at h
    · simp at h
    · have hm := runItems_visited_mem cmd (checkUpcoming p.items) p.items s v h
      by_contra hc
      push_neg at hc
      exact hm.2 (checkUpcoming_mem p.items v hm.1 hc.1 hc.2)

theorem foreachPages_visited_good (cmd : σ → Video → σ × Option GoErr) (pages : List Page)
    (s : σ) (v : Video) (h : v ∈ (foreachPages cmd pages s).visited) :
    v.live = "none" ∨ v.live = "completed" := by
  induction pages generalizing s with
  | nil => simp [foreachPages] at h
  | cons p rest ih =>
    unfold foreachPages at h
    split at h
    · rename_i s1 e pd vis heq
      apply foreachPage_visited_good cmd p s v
      rw [heq]
      exact h
    · rename_i s1 pd vis heq
      simp only [List.mem_append] at h
      rcases h with h | h
      · apply foreachPage_visited_good cmd p s v
        rw [heq]
        exact h
      · exact ih _ h

theorem Foreach_visited_good (videos : Option (List String))
    (cmd : σ → Video → σ × Option GoErr) (pages : List Page) (s : σ) (v : Video)
    (h : v ∈ (Foreach videos cmd pages s).visited) :
    v.live = "none" ∨ v.live = "completed" := by
  unfold Foreach at h
  match videos with
  | none => exact foreachPages_visited_good cmd pages s v h
  | some _ => exact foreachPage_visited_good cmd (pages.headD emptyPage) s v h

theorem foreachPage_pagesDone (cmd : σ → Video → σ × Option GoErr) (p : Page) (s : σ) :
    (foreachPage cmd p s).pagesDone = [p] := by
  unfold foreachPage
  split
  · rfl
  · split <;> rfl

theorem foreachPages_pagesDone (cmd : σ → Video → σ × Option GoErr) (pages : List Page)
    (s : σ) (h : (foreachPages cmd pages s).err = none) :
    (foreachPages cmd pages s).pagesDone = pages := by
  induction pages generalizing s with
  | nil => rfl
  | cons p rest ih =>
    unfold foreachPages at h ⊢
    rcases heq : foreachPage cmd p s with ⟨s1, e1, pd1, vis1⟩
    rw [heq] at h
    cases e1 with
    | some e => exact Option.noConfusion h
    | none =>
      show p :: (foreachPages cmd rest s1).pagesDone = p :: rest
      rw [ih s1 h]

theorem archiveStep_submitted_grow (sel : List (Video → Bool)) (s : ArchState) (pi : Video)
    (id : String) (h : id ∈ ((archiveStep sel s pi).1).submitted) :
    id ∈ s.submitted ∨ id = pi.videoId := by
  unfold archiveStep at h
  split at h
  · exact Or.inl h
  · split at h
    · exact Or.inl h
    · simp only [List.mem_append, List.mem_singleton] at h
      exact h

theorem archiveStep_seen_grow (sel : List (Video → Bool)) (s : ArchState) (pi : Video)
    (id : String) (h : id ∈ ((archiveStep sel s pi).1).videos.getD []) :
    id ∈ s.videos.getD [] ∨ id = pi.videoId := by
  unfold archiveStep at h
  split at h
  · exact Or.inl h
  · split at h
    · exact Or.inl h
    · rw [show ((⟨some (setInsert (s.videos.getD []) pi.videoId),
          s.submitted ++ [pi.videoId]⟩ : ArchState).videos.getD []) =
          setInsert (s.videos.getD []) pi.videoId from rfl, setInsert_mem] at h
      exact h

theorem archiveStep_videos_isSome (sel : List (Video → Bool)) (s : ArchState) (pi : Video) :
    ((archiveStep sel s pi).1).videos.isSome = true := by
  unfold archiveStep
  split
  · rfl
  · split <;> rfl

theorem archiveStep_err_none (sel : List (Video → Bool)) (s : ArchState) (pi : Video) :
    (archiveStep sel s pi).2 = none := by
  unfold archiveStep
  split
  · rfl
  · split <;> rfl

theorem runItems_arch_cons_skip (sel : List (Video → Bool)) (upcoming : List String)
    (v : Video) (rest : List Video) (s : ArchState) (hup : v.videoId ∈ upcoming) :
    runItems (archiveStep sel) upcoming (v :: rest) s =
      runItems (archiveStep sel) upcoming rest s := by
  simp only [runItems]
  rw [if_pos hup]

theorem runItems_arch_cons_visit (sel : List (Video → Bool)) (upcoming : List String)
    (v : Video) (rest : List Video) (s : ArchState) (hup : v.videoId ∉ upcoming) :
    runItems (archiveStep sel) upcoming (v :: rest) s =
      ⟨(runItems (archiveStep sel) upcoming rest (archiveStep sel s v).1).state,
       (runItems (archiveStep sel) upcoming rest (archiveStep sel s v).1).err, [],
       v :: (runItems (archiveStep sel) upcoming rest (archiveStep sel s v).1).visited⟩ := by
  simp only [runItems]
  rw [if_neg hup]
  rcases heq : archiveStep sel s v with ⟨s', e⟩
  have h2 := archiveStep_err_none sel s v
  rw [heq] at h2
  simp only at h2
  subst h2
  rfl

theorem runItems_arch_submitted (sel : List (Video → Bool)) (upcoming : List String)
    (items : List Video) (s : ArchState) (id : String)
    (h : id ∈ (runItems (archiveStep sel) upcoming items s).state.submitted) :
    id ∈ s.submitted ∨
      ∃ w ∈ (runItems (archiveStep sel) upcoming items s).visited, w.videoId = id := by
  induction items generalizing s with
  | nil => exact Or.inl h
  | cons v rest ih =>
    by_cases hup : v.videoId ∈ upcoming
    · rw [runItems_arch_cons_skip sel upcoming v rest s hup] at h ⊢
      exact ih s h
    · rw [runItems_arch_cons_visit sel upcoming v rest s hup] at h ⊢
      rcases ih _ h with h' | ⟨w, hw, hid⟩
      · rcases archiveStep_submitted_grow sel s v id h' with h'' | rfl
        · exact Or.inl h''
        · exact Or.inr ⟨v, List.mem_cons_self _ _, rfl⟩
      · exact Or.inr ⟨w, List.mem_cons_of_mem v hw, hid⟩

theorem runItems_arch_seen (sel : List (Video → Bool)) (upcoming : List String)
    (items : List Video) (s : ArchState) (id : String)
    (h : id ∈ (runItems (archiveStep sel) upcoming items s).state.videos.getD []) :
    id ∈ s.videos.getD [] ∨
      ∃ w ∈ (runItems (archiveStep sel) upcoming items s).visited, w.videoId = id := by
  induction items generalizing s with
  | nil => exact Or.inl h
  | cons v rest ih =>
    by_cases hup : v.videoId ∈ upcoming
    · rw [runItems_arch_cons_skip sel upcoming v rest s hup] at h ⊢
      exact ih s h
    · rw [runItems_arch_cons_visit sel upcoming v rest s hup] at h ⊢
      rcases ih _ h with h' | ⟨w, hw, hid⟩
      · rcases archiveStep_seen_grow sel s v id h' with h'' | rfl
        · exact Or.inl h''
        · exact Or.inr ⟨v, List.mem_cons_self _ _, rfl⟩
      · exact Or.inr ⟨w, List.mem_cons_of_mem v hw, hid⟩

theorem foreachPage_httpError (cmd : σ → Video → σ × Option GoErr) (p : Page) (s : σ)
    (h : isHTTPError p.httpStatus = true) :
    foreachPage cmd p s = ⟨s, some (.base "foreach video: http status"), [p], []⟩ := by
  unfold foreachPage
  rw [if_pos h]

theorem foreachPage_empty (cmd : σ → Video → σ × Option GoErr) (p : Page) (s : σ)
    (h1 : ¬isHTTPError p.httpStatus = true) (h2 : p.items.isEmpty = true) :
    foreachPage cmd p s = ⟨s, some ErrEmptyResults, [p], []⟩ := by
  unfold foreachPage
  rw [if_neg h1, if_pos h2]

theorem foreachPage_run (cmd : σ → Video → σ × Option GoErr) (p : Page) (s : σ)
    (h1 : ¬isHTTPError p.httpStatus = true) (h2 : ¬p.items.isEmpty = true) :
    foreachPage cmd p s =
      ⟨(runItems cmd (checkUpcoming p.items) p.items s).state,
       (runItems cmd (checkUpcoming p.items) p.items s).err, [p],
       (runItems cmd (checkUpcoming p.items) p.items s).visited⟩ := by
  unfold foreachPage
  rw [if_neg h1, if_neg h2]

theorem foreachPage_arch_submitted (sel : List (Video → Bool)) (p : Page) (s : ArchState)
    (id : String) (h : id ∈ (foreachPage (archiveStep sel) p s).state.submitted) :
    id ∈ s.submitted ∨ ∃ w ∈ (foreachPage (archiveStep sel) p s).visited, w.videoId = id := by
  by_cases h1 : isHTTPError p.httpStatus = true
  · rw [foreachPage_httpError (archiveStep sel) p s h1] at h ⊢
    exact Or.inl h
  · by_cases h2 : p.items.isEmpty = true
    · rw [foreachPage_empty (archiveStep sel) p s h1 h2] at h ⊢
      exact Or.inl h
    · rw [foreachPage_run (archiveStep sel) p s h1 h2] at h ⊢
      exact runItems_arch_submitted sel (checkUpcoming p.items) p.items s id h

theorem foreachPage_arch_seen (sel : List (Video → Bool)) (p : Page) (s : ArchState)
    (id : String) (h : id ∈ (foreachPage (archiveStep sel) p s).state.videos.getD []) :
    id ∈ s.videos.getD [] ∨
      ∃ w ∈ (foreachPage (archiveStep sel) p s).visited, w.videoId = id := by
  by_cases h1 : isHTTPError p.httpStatus = true
  · rw [foreachPage_httpError (archiveStep sel) p s h1] at h ⊢
    exact Or.inl h
  · by_cases h2 : p.items.isEmpty = true
    · rw [foreachPage_empty (archiveStep sel) p s h1 h2] at h ⊢
      exact Or.inl h
    · rw [foreachPage_run (archiveStep sel) p s h1 h2] at h ⊢
      exact runItems_arch_seen sel (checkUpcoming p.items) p.items s id h

theorem foreachPages_arch_submitted (sel : List (Video → Bool)) (pages : List Page)
    (s : ArchState) (id : String)
    (h : id ∈ (foreachPages (archiveStep sel) pages s).state.submitted) :
    id ∈ s.submitted ∨
      ∃ w ∈ (foreachPages (archiveStep sel) pages s).visited, w.videoId = id := by
  induction pages generalizing s with
  | nil => exact Or.inl h
  | cons p rest ih =>
    simp only [foreachPages] at h ⊢
    rcases heq : foreachPage (archiveStep sel) p s with ⟨s1, e1, pd1, vis1⟩
    rw [heq] at h
    have hvis : (foreachPage (archiveStep sel) p s).visited = vis1 := by rw [heq]
    cases e1 with
    | some e =>
      have h' : id ∈ (foreachPage (archiveStep sel) p s).state.submitted := by
        rw [heq]
        exact h
      rcases foreachPage_arch_submitted sel p s id h' with h'' | ⟨w, hw, hid⟩
      · exact Or.inl h''
      · exact Or.inr ⟨w, hvis ▸ hw, hid⟩
    | none =>
      rcases ih s1 h with h' | ⟨w, hw, hid⟩
      · have h'' : id ∈ (foreachPage (archiveStep sel) p s).state.submitted := by
          rw [heq]
          exact h'
        rcases foreachPage_arch_submitted sel p s id h'' with h3 | ⟨w, hw, hid⟩
        · exact Or.inl h3
        · exact Or.inr ⟨w, List.mem_append.mpr (Or.inl (hvis ▸ hw)), hid⟩
      · exact Or.inr ⟨w, List.mem_append.mpr (Or.inr hw), hid⟩

theorem foreachPages_arch_seen (sel : List (Video → Bool)) (pages : List Page)
    (s : ArchState) (id : String)
    (h : id ∈ (foreachPages (archiveStep sel) pages s).state.videos.getD []) :
    id ∈ s.videos.getD [] ∨
      ∃ w ∈ (foreachPages (archiveStep sel) pages s).visited, w.videoId = id := by
  induction pages generalizing s with
  | nil => exact Or.inl h
  | cons p rest ih =>
    simp only [foreachPages] at h ⊢
    rcases heq : foreachPage (archiveStep sel) p s with ⟨s1, e1, pd1, vis1⟩
    rw [heq] at h
    have hvis : (foreachPage (archiveStep sel) p s).visited = vis1 := by rw [heq]
    cases e1 with
    | some e =>
      have h' : id ∈ (foreachPage (archiveStep sel) p s).state.videos.getD [] := by
        rw [heq]
        exact h
      rcases foreachPage_arch_seen sel p s id h' with h'' | ⟨w, hw, hid⟩
      · exact Or.inl h''
      · exact Or.inr ⟨w, hvis ▸ hw, hid⟩
    | none =>
      rcases ih s1 h with h' | ⟨w, hw, hid⟩
      · have h'' : id ∈ (foreachPage (archiveStep sel) p s).state.videos.getD [] := by
          rw [heq]
          exact h'
        rcases foreachPage_arch_seen sel p s id h'' with h3 | ⟨w, hw, hid⟩
        · exact Or.inl h3
        · exact Or.inr ⟨w, List.mem_append.mpr (Or.inl (hvis ▸ hw)), hid⟩
      · exact Or.inr ⟨w, List.mem_append.mpr (Or.inr hw), hid⟩

theorem Foreach_arch_submitted (sel : List (Video → Bool)) (videos : Option (List String))
    (pages : List Page) (s : ArchState) (id : String)
    (h : id ∈ (Foreach videos (archiveStep sel) pages s).state.submitted) :
    id ∈ s.submitted ∨
      ∃ w ∈ (Foreach videos (archiveStep sel) pages s).visited, w.videoId = id := by
  cases videos with
  | none => exact foreachPages_arch_submitted sel pages s id h
  | some l =>
    simp only [Foreach] at h ⊢
    exact foreachPage_arch_submitted sel (pages.headD emptyPage) s id h

theorem Foreach_arch_seen (sel : List (Video → Bool)) (videos : Option (List String))
    (pages : List Page) (s : ArchState) (id : String)
    (h : id ∈ (Foreach videos (archiveStep sel) pages s).state.videos.getD []) :
    id ∈ s.videos.getD [] ∨
      ∃ w ∈ (Foreach videos (archiveStep sel) pages s).visited, w.videoId = id := by
  cases videos with
  | none => exact foreachPages_arch_seen sel pages s id h
  | some l =>
    simp only [Foreach] at h ⊢
    exact foreachPage_arch_seen sel (pages.headD emptyPage) s id h

theorem runItems_arch_isSome (sel : List (Video → Bool)) (upcoming : List String)
    (items : List Video) (s : ArchState) (h : s.videos.isSome = true) :
    (runItems (archiveStep sel) upcoming items s).state.videos.isSome = true := by
  induction items generalizing s with
  | nil => exact h
  | cons v rest ih =>
    by_cases hup : v.videoId ∈ upcoming
    · rw [runItems_arch_cons_skip sel upcoming v rest s hup]
      exact ih s h
    · rw [runItems_arch_cons_visit sel upcoming v rest s hup]
      exact ih _ (archiveStep_videos_isSome sel s v)

theorem foreachPage_arch_isSome (sel : List (Video → Bool)) (p : Page) (s : ArchState)
    (h : s.videos.isSome = true) :
    (foreachPage (archiveStep sel) p s).state.videos.isSome = true := by
  by_cases h1 : isHTTPError p.httpStatus = true
  · rw [foreachPage_httpError (archiveStep sel) p s h1]
    exact h
  · by_cases h2 : p.items.isEmpty = true
    · rw [foreachPage_empty (archiveStep sel) p s h1 h2]
      exact h
    · rw [foreachPage_run (archiveStep sel) p s h1 h2]
      exact runItems_arch_isSome sel (checkUpcoming p.items) p.items s h

theorem foreachPages_arch_isSome (sel : List (Video → Bool)) (pages : List Page)
    (s : ArchState) (h : s.videos.isSome = true) :
    (foreachPages (archiveStep sel) pages s).state.videos.isSome = true := by
  induction pages generalizing s with
  | nil => exact h
  | cons p rest ih =>
    simp only [foreachPages]
    rcases heq : foreachPage (archiveStep sel) p s with ⟨s1, e1, pd1, vis1⟩
    have h1 : s1.videos.isSome = true := by
      have := foreachPage_arch_isSome sel p s h
      rw [heq] at this
      exact this
    cases e1 with
    | some e => exact h1
    | none => exact ih s1 h1

theorem Foreach_arch_isSome (sel : List (Video → Bool)) (videos : Option (List String))
    (pages : List Page) (s : ArchState) (h : s.videos.isSome = true) :
    (Foreach videos (archiveStep sel) pages s).state.videos.isSome = true := by
  cases videos with
  | none => exact foreachPages_arch_isSome sel pages s h
  | some l =>
    simp only [Foreach]
    exact foreachPage_arch_isSome sel (pages.headD emptyPage) s h

theorem processPoolError_isSome (st : Option (List String) × List GoErr) (ve : GoErr)
    (h : st.1.isSome = true) : (processPoolError st ve).1.isSome = true := by
  unfold processPoolError
  split
  · split
    · rcases st with ⟨vids, errs⟩
      cases vids with
      | none => exact Bool.noConfusion h
      | some l => rfl
    · exact h
  · exact h

theorem foldl_processPoolError_isSome (errs : List GoErr)
    (st : Option (List String) × List GoErr) (h : st.1.isSome = true) :
    (errs.foldl processPoolError st).1.isSome = true := by
  induction errs generalizing st with
  | nil => exact h
  | cons e rest ih =>
    rw [List.foldl_cons]
    exact ih _ (processPoolError_isSome st e h)

theorem archiveChannel_videos_isSome (cfg : Config) (ch : YouTubeChannel)
    (videos0 : Option (List String)) (pages : List Page)
    (outcome : String → Nat → RunOutcome) (h : videos0.isSome = true) :
    (archiveChannel cfg ch videos0 pages outcome).videos.isSome = true := by
  unfold archiveChannel
  exact foldl_processPoolError_isSome _ _
    (Foreach_arch_isSome cfg.selectors videos0 pages ⟨videos0, []⟩ h)

theorem WaitAux_length (reports : List (List GoErr)) (n : Nat) (h : reports.length = n) :
    WaitAux n reports = (reports.flatten, n) := by
  induction reports generalizing n with
  | nil =>
    subst h
    rfl
  | cons r rest ih =>
    subst h
    show WaitAux (rest.length + 1) (r :: rest) = _
    unfold WaitAux
    rw [ih rest.length rfl]
    simp [List.flatten]

theorem archiveLoop_cons (cfg : Config) (cr : ChannelRun) (rest : List ChannelRun) :
    archiveLoop cfg (cr :: rest) =
      match channelOutcome cfg cr with
      | some ce => ce :: archiveLoop cfg rest
      | none => archiveLoop cfg rest := by
  cases hc : cr.cache with
  | miss =>
    have h1 : channelOutcome cfg cr = some ⟨cr.channel.id, [ErrCacheMiss]⟩ := by
      unfold channelOutcome
      rw [hc]
    rw [h1]
    conv_lhs => rw [archiveLoop]
    rw [hc]
  | hit v0 pages =>
    have key : archiveLoop cfg (cr :: rest) =
        (if (archiveChannel cfg cr.channel v0 pages cr.outcome).errors.isEmpty then
          archiveLoop cfg rest
        else
          ⟨cr.channel.id, (archiveChannel cfg cr.channel v0 pages cr.outcome).errors⟩ ::
            archiveLoop cfg rest) := by
      conv_lhs => rw [archiveLoop]
      rw [hc]
    have h1 : channelOutcome cfg cr =
        (if (archiveChannel cfg cr.channel v0 pages cr.outcome).errors.isEmpty then none
        else some ⟨cr.channel.id, (archiveChannel cfg cr.channel v0 pages cr.outcome).errors⟩) := by
      unfold channelOutcome
      rw [hc]
    rw [key, h1]
    by_cases hb : (archiveChannel cfg cr.channel v0 pages cr.outcome).errors.isEmpty = true
    · rw [if_pos hb, if_pos hb]
    · rw [if_neg hb, if_neg hb]

theorem archiveLoop_eq_filterMap (cfg : Config) (runs : List ChannelRun) :
    archiveLoop cfg runs = runs.filterMap (channelOutcome cfg) := by
  induction runs with
  | nil => rfl
  | cons cr rest ih =>
    rw [archiveLoop_cons, List.filterMap_cons]
    cases hco : channelOutcome cfg cr <;> simp [hco, ih]

theorem Archive_none_iff (cfg : Config) (runs : List ChannelRun) :
    Archive cfg runs = none ↔ ∀ cr ∈ runs, channelOutcome cfg cr = none := by
  unfold Archive
  rw [archiveLoop_eq_filterMap]
  constructor
  · intro h cr hcr
    by_cases he : (runs.filterMap (channelOutcome cfg)).isEmpty = true
    · rw [List.isEmpty_iff] at he
      exact List.filterMap_eq_nil_iff.mp he cr hcr
    · rw [if_neg he] at h
      exact Option.noConfusion h
  · intro h
    have he : runs.filterMap (channelOutcome cfg) = [] := List.filterMap_eq_nil_iff.mpr h
    rw [he]
    rfl

theorem Foreach_some_pagesDone (vs : List String) (cmd : σ → Video → σ × Option GoErr)
    (pages : List Page) (s : σ) :
    (Foreach (some vs) cmd pages s).pagesDone = [pages.headD emptyPage] := by
  simp only [Foreach]
  exact foreachPage_pagesDone cmd (pages.headD emptyPage) s

theorem crawlChannel_none_some (dir : List DirEntry) :
    crawlChannel none (some dir) =
      if (dir.length != 0) = true then some (dir.foldl crawlStep []) else none := by
  unfold crawlChannel
  by_cases hd : (dir.length != 0) = true
  · simp [hd]
  · simp [hd]

/-- C1: when a submitted video's download fails on every retry (exit code
1), the failure is appended to the channel's error collection, but the
video's ID is NOT removed from the seen set: the worker reports the raw
`youtubeDownload` error, which wraps `ErrYoutubeDownloader` and never the
`videoError` type (nothing in the code constructs one), so
`errors.Is(ve, ErrVideo)` is false and the rollback `delete` never runs.
The claim's removal clause fails on the code; the append clause holds. -/
theorem C1_failed_download_not_rolled_back :
    archiveChannel cfgPlain chanPlain (some []) [⟨200, [vid1]⟩] failingOutcome =
      ⟨some ["v1"], ["v1"], [.wrap ErrYoutubeDownloader "pid 42 exitted with code 1"]⟩ ∧
    errorsIs (.wrap ErrYoutubeDownloader "pid 42 exitted with code 1") ErrVideo = false :=
  ⟨by decide, by decide⟩

/-- C2: the retry loop iterates `cfg.MaxRetries` times (the adjusted local
`max` is dead), so `MaxRetries = 0` performs zero attempts and returns nil
— success without a single downloader run — contrary to the claim (and the
Config field's documentation) that 0 means retry indefinitely. For a
positive count the loop does retry identically and returns the last
failure, and returns nil as soon as one attempt succeeds. -/
theorem C2_zero_retries_returns_success :
    youtubeDownload 0 (fun _ => .spawnFailure "connection refused") = none ∧
    youtubeDownload 2 (fun _ => .exited 7 1) =
      some (.wrap ErrYoutubeDownloader "pid 7 exitted with code 1") ∧
    youtubeDownload 3 (fun i => if i < 2 then .exited 9 1 else .exited 9 0) = none :=
  ⟨by decide, by decide, by decide⟩

/-- C3: the visit callback of `Archive` evaluates only the global
`Config.Selectors`; the channel's own `Selectors` field is never read. A
video rejected by every channel-scoped selector is still submitted when
the global list is empty, refuting the claim's channel-scoped clause. A
video rejected by a global selector is skipped and not marked seen. -/
theorem C3_channel_selectors_not_applied :
    (archiveChannel cfgPlain chanRejecting (some []) [⟨200, [vid1]⟩] okOutcome).submitted =
      ["v1"] ∧
    chanRejecting.selectors.all (fun m => m vid1) = false ∧
    (archiveChannel cfgRejecting chanPlain (some []) [⟨200, [vid1]⟩] okOutcome).submitted = [] ∧
    (archiveChannel cfgRejecting chanPlain (some []) [⟨200, [vid1]⟩] okOutcome).videos =
      some [] :=
  ⟨by decide, by decide, by decide, by decide⟩

/-- C4: with the seen set unset (`Videos` nil), an error-free enumeration
walks every page of the feed; with the seen set set (non-nil, even empty),
exactly the first page is requested and visited, unconditionally. -/
theorem C4_page_walk (σ : Type) (cmd : σ → Video → σ × Option GoErr)
    (pages : List Page) (s : σ) (vs : List String) :
    ((Foreach none cmd pages s).err = none → (Foreach none cmd pages s).pagesDone = pages) ∧
    (Foreach (some vs) cmd pages s).pagesDone = [pages.headD emptyPage] :=
  ⟨fun h => foreachPages_pagesDone cmd pages s h, Foreach_some_pagesDone vs cmd pages s⟩

/-- C4 witness: on a concrete two-page feed with a benign callback the
full walk visits both pages. -/
theorem C4_page_walk_witness : (Foreach none okCmd pagesTwo ()).pagesDone = pagesTwo :=
  (C4_page_walk Unit okCmd pagesTwo () []).1 (by decide)

/-- C5: a video whose live-broadcast status is neither "none" nor
"completed" is never passed to the visit callback; and under the Archive
callback, any ID newly submitted to the pool or newly present in the seen
set traces back to some visited video carrying that ID — so an
upcoming/live video is never submitted and never marked seen, regardless
of the selector outcome, and is re-examined on the next run. -/
theorem C5_upcoming_excluded (σ : Type) (cmd : σ → Video → σ × Option GoErr)
    (videos0 : Option (List String)) (pages : List Page) (s : σ) (v : Video)
    (sel : List (Video → Bool)) (a : ArchState) (id : String) :
    (v ∈ (Foreach videos0 cmd pages s).visited → v.live = "none" ∨ v.live = "completed") ∧
    (id ∈ (Foreach videos0 (archiveStep sel) pages a).state.submitted →
      id ∈ a.submitted ∨
        ∃ w ∈ (Foreach videos0 (archiveStep sel) pages a).visited, w.videoId = id) ∧
    (id ∈ (Foreach videos0 (archiveStep sel) pages a).state.videos.getD [] →
      id ∈ a.videos.getD [] ∨
        ∃ w ∈ (Foreach videos0 (archiveStep sel) pages a).visited, w.videoId = id) :=
  ⟨Foreach_visited_good videos0 cmd pages s v,
   Foreach_arch_submitted sel videos0 pages a id,
   Foreach_arch_seen sel videos0 pages a id⟩

/-- C5 witness: the visited video of a concrete one-page run has a
completed status, and its submitted ID traces to a visited video. -/
theorem C5_upcoming_excluded_witness :
    (Video.live vid1 = "none" ∨ Video.live vid1 = "completed") ∧
    ("v1" ∈ (⟨some [], []⟩ : ArchState).submitted ∨
      ∃ w ∈ (Foreach none (archiveStep []) [⟨200, [vid1]⟩] ⟨some [], []⟩).visited,
        w.videoId = "v1") :=
  ⟨(C5_upcoming_excluded Unit okCmd none [⟨200, [vid1]⟩] () vid1 [] ⟨some [], []⟩ "v1").1
      (by decide),
   (C5_upcoming_excluded Unit okCmd none [⟨200, [vid1]⟩] () vid1 [] ⟨some [], []⟩ "v1").2.1
      (by decide)⟩

/-- C6: `Archive` returns nil exactly when every channel contributes no
error; the loop's outcome is the per-channel outcomes of all channels
(computed independently, so no failure aborts the run early); and a
cache-missing channel records exactly `ErrCacheMiss` while the loop
continues with the remaining channels. -/
theorem C6_archive_aggregation (cfg : Config) (runs : List ChannelRun)
    (ch : YouTubeChannel) (oc : String → Nat → RunOutcome) (rest : List ChannelRun) :
    (Archive cfg runs = none ↔ ∀ cr ∈ runs, channelOutcome cfg cr = none) ∧
    archiveLoop cfg runs = runs.filterMap (channelOutcome cfg) ∧
    archiveLoop cfg (⟨ch, .miss, oc⟩ :: rest) =
      ⟨ch.id, [ErrCacheMiss]⟩ :: archiveLoop cfg rest :=
  ⟨Archive_none_iff cfg runs, archiveLoop_eq_filterMap cfg runs, by
    rw [archiveLoop_cons]
    rfl⟩

/-- C6 witness: an empty run archives without error. -/
theorem C6_archive_aggregation_witness : Archive cfgPlain [] = none :=
  (C6_archive_aggregation cfgPlain [] chanPlain okOutcome []).1.mpr (by simp)

/-- C7: for an existing channel subdirectory, the reconciled seen set
holds exactly the IDs derived (prefix up to the first dot) from regular
files not ending in ".json"; the `abc123.mp4` + `abc123.info.json`
example yields exactly `{"abc123"}`; a missing subdirectory is no error
and leaves the seen set untouched. -/
theorem C7_reconciler_derivation (dir : List DirEntry) (x : String)
    (seen : Option (List String)) :
    (x ∈ (crawlChannel none (some dir)).getD [] ↔
      ∃ f ∈ dir, f.isDir = false ∧ goHasSuffix f.name ".json" = false ∧
        deriveId f.name = x) ∧
    crawlChannel none (some [⟨"abc123.mp4", false⟩, ⟨"abc123.info.json", false⟩]) =
      some ["abc123"] ∧
    crawlChannel seen none = seen := by
  refine ⟨?_, by decide, rfl⟩
  rw [crawlChannel_none_some]
  cases dir with
  | nil => simp
  | cons f rest =>
    rw [if_pos (by simp)]
    rw [show (some ((f :: rest).foldl crawlStep [])).getD [] =
        (f :: rest).foldl crawlStep [] from rfl]
    rw [crawl_foldl_mem]
    simp

/-- C8: no operation of the embedded lifetime resets a set seen set to
unset: the reconciler, the visit callback, the per-error rollback, and a
whole channel cycle each map a non-nil `Videos` to a non-nil `Videos`
(the callback in fact always leaves it non-nil). -/
theorem C8_seen_never_reset (seen : Option (List String)) (dl : Option (List DirEntry))
    (sel : List (Video → Bool)) (s : ArchState) (pi : Video) (cfg : Config)
    (ch : YouTubeChannel) (v0 : Option (List String)) (pages : List Page)
    (oc : String → Nat → RunOutcome) (st : Option (List String) × List GoErr) (ve : GoErr) :
    (seen.isSome = true → (crawlChannel seen dl).isSome = true) ∧
    (archiveStep sel s pi).1.videos.isSome = true ∧
    (st.1.isSome = true → (processPoolError st ve).1.isSome = true) ∧
    (v0.isSome = true → (archiveChannel cfg ch v0 pages oc).videos.isSome = true) := by
  refine ⟨?_, archiveStep_videos_isSome sel s pi, processPoolError_isSome st ve,
    archiveChannel_videos_isSome cfg ch v0 pages oc⟩
  intro h
  unfold crawlChannel
  cases dl with
  | none => exact h
  | some dir =>
    rcases Option.isSome_iff_exists.mp h with ⟨l, rfl⟩
    simp

/-- C8 witness: a set-but-empty seen set stays set across the reconciler
(missing directory) and a full channel cycle. -/
theorem C8_seen_never_reset_witness :
    (crawlChannel (some []) none).isSome = true ∧
    (archiveChannel cfgPlain chanPlain (some []) [] okOutcome).videos.isSome = true :=
  ⟨(C8_seen_never_reset (some []) none [] ⟨none, []⟩ vid1 cfgPlain chanPlain (some []) []
      okOutcome (some [], []) ErrVideo).1 (by decide),
   (C8_seen_never_reset (some []) none [] ⟨none, []⟩ vid1 cfgPlain chanPlain (some []) []
      okOutcome (some [], []) ErrVideo).2.2.2 (by decide)⟩

/-- C9: with pool size N and one accumulated error list reported by each
of the N workers, `Wait` performs exactly N receives and returns the
concatenation of every worker's list. -/
theorem C9_wait_barrier (maxRetries : Nat) (outcome : String → Nat → RunOutcome)
    (workerJobs : List (List String)) (n : Nat) (h : workerJobs.length = n) :
    WaitAux n (workerJobs.map (workerReport maxRetries outcome)) =
      ((workerJobs.map (workerReport maxRetries outcome)).flatten, n) := by
  apply WaitAux_length
  rw [List.length_map]
  exact h

/-- C9 witness: two workers with one failing job each report two lists,
received in exactly two receives and concatenated. -/
theorem C9_wait_barrier_witness :
    WaitAux 2 ([["a"], ["b"]].map (workerReport 1 failingOutcome)) =
      (([["a"], ["b"]].map (workerReport 1 failingOutcome)).flatten, 2) :=
  C9_wait_barrier 1 failingOutcome [["a"], ["b"]] 2 (by decide)

/-- C10: a non-empty channel directory whose entries are all skipped
(directories or ".json" names) still leaves the seen set initialised to a
non-nil empty set, and with any set seen set every later enumeration
requests only the first page of the feed. -/
theorem C10_skipped_entries_still_init (dir : List DirEntry) (σ : Type)
    (cmd : σ → Video → σ × Option GoErr) (pages : List Page) (s : σ)
    (h1 : dir ≠ []) (h2 : ∀ f ∈ dir, f.isDir = true ∨ goHasSuffix f.name ".json" = true) :
    crawlChannel none (some dir) = some [] ∧
    (Foreach (some ([] : List String)) cmd pages s).pagesDone = [pages.headD emptyPage] := by
  constructor
  · rw [crawlChannel_none_some, if_pos ?_, crawl_foldl_skip dir [] h2]
    cases dir with
    | nil => exact absurd rfl h1
    | cons f rest => simp
  · exact Foreach_some_pagesDone [] cmd pages s

/-- C10 witness: a directory holding only `channel.json` reconciles to a
set-but-empty seen set, and the enumeration then visits one page only. -/
theorem C10_skipped_entries_still_init_witness :
    crawlChannel none (some [⟨"channel.json", false⟩]) = some [] ∧
    (Foreach (some ([] : List String)) okCmd pagesTwo ()).pagesDone =
      [pagesTwo.headD emptyPage] :=
  C10_skipped_entries_still_init [⟨"channel.json", false⟩] Unit okCmd pagesTwo ()
    (by decide) (by decide)

end YTA
